import Mathlib

/-!
# Verification of the go-agent tool-dispatch CLI

A shallow embedding of the repository `timobuilds/go-agent` (single Go file
`main.go`, plus a simplified earlier variant of the agent loop).  The program
is an interactive chat client: it relays user lines to a remote model, and
when the model requests one of three local tools (`read_file`, `list_files`,
`edit_file`) it executes the tool against the local filesystem and feeds the
result back as a synthesized user turn.

The embedding models:
* Go string primitives used by the tools (`strings.Replace` with count -1,
  `strings.Contains`, `encoding/json` marshalling of a `[]string`);
* JSON values and the best-effort structural decoding performed by
  `json.Unmarshal` into each tool's input struct;
* the filesystem as seen by the tools: a flat map from paths to file
  contents plus a set of created directories for `read_file`/`edit_file`,
  and a directory tree for the recursive walk of `list_files`;
* the three tool bodies `ReadFile`, `ListFiles`, `EditFile` and
  `createNewFile`;
* tool dispatch (`Agent.executeTool`), reply processing
  (`Agent.processClaudeResponse`) and one iteration of the conversation
  loop (`Agent.Run`), with the remote inference call as an oracle;
* the simplified loop body of the tool-less agent variant, which special
  cases the `overloaded_error` condition.
-/

namespace GoAgent

/-! ## Go string primitives -/

/-- One step bound for `goReplaceNonempty`: each loop iteration of Go's
`strings.Replace` consumes at least one character of the subject string, so
`s.length` steps suffice.  `fuel = 0` is unreachable when started with
`fuel = s.length`. -/
def goReplaceFuel (old new : List Char) : Nat → List Char → List Char
  | _, [] => []
  | 0, s => s
  | fuel + 1, c :: rest =>
    if !old.isEmpty && old.isPrefixOf (c :: rest) then
      new ++ goReplaceFuel old new fuel ((c :: rest).drop old.length)
    else
      c :: goReplaceFuel old new fuel rest

/-- Go `strings.Replace(s, old, new, -1)` for a non-empty `old`: scan left to
right, replacing each leftmost non-overlapping occurrence. -/
def goReplaceNonempty (old new s : List Char) : List Char :=
  goReplaceFuel old new s.length s

/-- Go `strings.Replace(s, "", new, -1)`: an empty `old` matches at the
beginning of the string and after each rune, so `new` is inserted at every
character boundary. -/
def goInterleave (new : List Char) : List Char → List Char
  | [] => new
  | c :: rest => new ++ c :: goInterleave new rest

/-- Go `strings.Replace(s, old, new, -1)` on rune lists.  Matching a valid
UTF-8 `old` byte-wise in a valid UTF-8 `s` always aligns on rune boundaries
(UTF-8 is self-synchronizing), so the rune-level model is faithful. -/
def goReplaceAll (s old new : List Char) : List Char :=
  if old.isEmpty then goInterleave new s else goReplaceNonempty old new s

/-- `strings.Replace(s, old, new, -1)` on `String`. -/
def stringsReplaceAll (s old new : String) : String :=
  String.mk (goReplaceAll s.data old.data new.data)

/-- Go `strings.Contains(s, sub)` on rune lists. -/
def goContainsAux (sub : List Char) : List Char → Bool
  | [] => sub.isEmpty
  | c :: rest => sub.isPrefixOf (c :: rest) || goContainsAux sub rest

/-- Go `strings.Contains`. -/
def stringsContains (s sub : String) : Bool :=
  goContainsAux sub.data s.data

/-! ## JSON marshalling of `[]string` (encoding/json) -/

/-- Lowercase hex digit, as used by `encoding/json` escapes. -/
def hexDigit (n : Nat) : Char :=
  if n < 10 then Char.ofNat (48 + n) else Char.ofNat (87 + n)

/-- `encoding/json` escaping of one character inside a string literal: the
default encoder escapes quote, backslash, the control characters (with
shorthands for newline, carriage return and tab) and additionally the
HTML-relevant characters less-than, greater-than and ampersand. -/
def jsonEscapeChar (c : Char) : List Char :=
  if c = '"' then ['\\', '"']
  else if c = '\\' then ['\\', '\\']
  else if c = '\n' then ['\\', 'n']
  else if c = '\r' then ['\\', 'r']
  else if c = '\t' then ['\\', 't']
  else if c = '<' then ['\\', 'u', '0', '0', '3', 'c']
  else if c = '>' then ['\\', 'u', '0', '0', '3', 'e']
  else if c = '&' then ['\\', 'u', '0', '0', '2', '6']
  else if c.toNat < 32 then
    ['\\', 'u', '0', '0', hexDigit (c.toNat / 16), hexDigit (c.toNat % 16)]
  else [c]

/-- `encoding/json` encoding of one Go string. -/
def goQuote (s : String) : String :=
  String.mk ('"' :: (s.data.flatMap jsonEscapeChar) ++ ['"'])

/-- `json.Marshal` of a `[]string` built by starting from the nil slice and
appending: a nil slice (no element was ever appended) marshals to `null`,
a non-nil slice to a JSON array. -/
def goMarshalStrings (l : List String) : String :=
  if l.isEmpty then "null"
  else "[" ++ String.intercalate "," (l.map goQuote) ++ "]"

/-! ## JSON values and `json.Unmarshal` into the tool input structs -/

/-- A JSON value.  Object fields are kept in source order; Go's decoder
processes them in order, so a duplicated key ends up with the last value. -/
inductive Json where
  | null
  | bool (b : Bool)
  | num (n : Int)
  | str (s : String)
  | arr (elems : List Json)
  | obj (fields : List (String × Json))

/-- A `json.RawMessage` as handed to a tool: either bytes that are not valid
JSON, or a parsed JSON value. -/
inductive RawMsg where
  | invalid
  | json (j : Json)

/-- Last binding of a key in an object's field list (Go's decoder overwrites
earlier duplicates). -/
def jsonLookup (fields : List (String × Json)) (key : String) : Option Json :=
  fields.foldl (fun acc kv => if kv.1 = key then some kv.2 else acc) none

/-- `json.Unmarshal` of an object field into a `string` struct field:
missing field or JSON `null` leaves the zero value `""`; a JSON string is
taken verbatim; any other JSON type is a type error. -/
def decodeStringField (fields : List (String × Json)) (key : String) :
    Except String String :=
  match jsonLookup fields key with
  | none => .ok ""
  | some .null => .ok ""
  | some (.str s) => .ok s
  | some _ => .error ("json: cannot unmarshal value into Go struct field " ++ key ++ " of type string")

/-- `json.Unmarshal` into a struct: invalid bytes are a syntax error,
top-level `null` leaves the zero struct, a top-level non-object is a type
error, and an object decodes field-wise (unknown fields ignored). -/
def decodeStructFields (m : RawMsg) : Except String (Option (List (String × Json))) :=
  match m with
  | .invalid => .error "invalid character in JSON input"
  | .json .null => .ok none
  | .json (.obj fields) => .ok (some fields)
  | .json _ => .error "json: cannot unmarshal value into Go struct"

/-! ## Filesystem model -/

/-- The flat view of the filesystem used by `os.ReadFile`/`os.WriteFile`:
an association list from paths to file contents, plus the set of directories
created so far by `os.MkdirAll`. -/
structure Fs where
  files : List (String × String)
  dirs : List String
  deriving DecidableEq

/-- First content bound to a path. -/
def fsRead : List (String × String) → String → Option String
  | [], _ => none
  | (q, c) :: rest, p => if q = p then some c else fsRead rest p

/-- `os.WriteFile`: overwrite the file if present, create it otherwise. -/
def fsWrite : List (String × String) → String → String → List (String × String)
  | [], p, c => [(p, c)]
  | (q, d) :: rest, p, c =>
    if q = p then (p, c) :: rest else (q, d) :: fsWrite rest p c

/-- Split a slash-separated path into components. -/
def splitSlash : List Char → List (List Char)
  | [] => [[]]
  | c :: rest =>
    if c = '/' then [] :: splitSlash rest
    else
      match splitSlash rest with
      | [] => [[c]]
      | g :: gs => (c :: g) :: gs

/-- Go `path.Dir` on the cleaned relative slash-paths the agent deals in:
all but the last path component, `"."` when there is none. -/
def pathDir (p : String) : String :=
  let comps := (splitSlash p.data).dropLast
  if comps.isEmpty then "." else String.mk (List.intercalate ['/'] comps)

/-- The chain of ancestor directories a call to `os.MkdirAll d` creates:
for components `[a, b]` the directories `a` and `a/b`. -/
def ancestorDirs (d : String) : List String :=
  ((splitSlash d.data).foldl
    (fun acc comp =>
      match acc with
      | [] => [comp]
      | g :: _ => (g ++ '/' :: comp) :: acc)
    []).reverse |>.map String.mk

/-- `os.MkdirAll`: record the directory and all its ancestors. -/
def fsMkdirAll (dirs : List String) (d : String) : List String :=
  ancestorDirs d ++ dirs

/-- The only read error the model produces: the `*os.PathError` for a path
that does not exist (`os.IsNotExist` holds of it). -/
def pathErrorMessage (op p : String) : String :=
  op ++ " " ++ p ++ ": no such file or directory"

/-- `os.ReadFile` over the flat view. -/
def osReadFile (fs : Fs) (p : String) : Except String String :=
  match fsRead fs.files p with
  | some c => .ok c
  | none => .error (pathErrorMessage "open" p)

/-! ## Directory trees and the `list_files` walk -/

mutual
/-- A directory tree as `filepath.Walk` sees it.  Children are listed in the
lexical (sorted-by-name) order in which `filepath.Walk` visits directory
entries. -/
inductive FTree where
  | file
  | dir (children : FChildren)

/-- Named children of a directory, in visit order. -/
inductive FChildren where
  | nil
  | cons (name : String) (t : FTree) (rest : FChildren)
end

mutual
/-- The body of the `filepath.Walk` callback in `ListFiles`, for the subtree
rooted below relative path `pre`: every visited descendant contributes its
path relative to the walk root, directories with a trailing `/`. -/
def walkTree (pre : String) : FTree → List String
  | .file => []
  | .dir children => walkChildren pre children

/-- Walk the children of a directory whose root-relative path is `pre`. -/
def walkChildren (pre : String) : FChildren → List String
  | .nil => []
  | .cons name t rest =>
    let rel := if pre = "" then name else pre ++ "/" ++ name
    (match t with
     | .file => [rel]
     | .dir c => (rel ++ "/") :: walkChildren rel c) ++ walkChildren pre rest
end

/-- All entries `ListFiles` collects for a walk rooted at `t`: the root
itself (relative path `"."`) is skipped, every other visited path is
collected, directories with `"/"` appended. -/
def walkList (t : FTree) : List String :=
  walkTree "" t

/-- The string `ListFiles` produces from a successful walk rooted at `t`:
`json.Marshal` of the accumulated `[]string` (which is the nil slice, hence
`null`, when the walk collected nothing). -/
def listFilesOutput (t : FTree) : String :=
  goMarshalStrings (walkList t)

/-! ## Tool input structs and their decoders -/

/-- `ReadFileInput`: `{path string}`. -/
structure ReadFileInput where
  path : String
  deriving DecidableEq

/-- `json.Unmarshal(input, &ReadFileInput{})`. -/
def decodeReadFileInput (m : RawMsg) : Except String ReadFileInput := do
  match ← decodeStructFields m with
  | none => .ok ⟨""⟩
  | some fields => return ⟨← decodeStringField fields "path"⟩

/-- `ListFilesInput`: `{path string, optional}`. -/
structure ListFilesInput where
  path : String
  deriving DecidableEq

/-- `json.Unmarshal(input, &ListFilesInput{})`. -/
def decodeListFilesInput (m : RawMsg) : Except String ListFilesInput := do
  match ← decodeStructFields m with
  | none => .ok ⟨""⟩
  | some fields => return ⟨← decodeStringField fields "path"⟩

/-- `EditFileInput`: `{path, old_str, new_str : string}`. -/
structure EditFileInput where
  path : String
  old_str : String
  new_str : String
  deriving DecidableEq

/-- `json.Unmarshal(input, &EditFileInput{})`. -/
def decodeEditFileInput (m : RawMsg) : Except String EditFileInput := do
  match ← decodeStructFields m with
  | none => .ok ⟨"", "", ""⟩
  | some fields =>
    return ⟨← decodeStringField fields "path",
            ← decodeStringField fields "old_str",
            ← decodeStringField fields "new_str"⟩

/-- The JSON input the model sends for an `edit_file` call. -/
def mkEditInput (p o n : String) : RawMsg :=
  .json (.obj [("path", .str p), ("old_str", .str o), ("new_str", .str n)])

/-- The JSON input the model sends for a `read_file` call. -/
def mkReadInput (p : String) : RawMsg :=
  .json (.obj [("path", .str p)])

/-- The JSON input the model sends for a `list_files` call. -/
def mkListInput (p : String) : RawMsg :=
  .json (.obj [("path", .str p)])

/-! ## The three tools -/

/-- What a tool invocation can do: return a result string, return a Go
error (whose message the dispatcher reports), or panic — `ListFiles` calls
`panic(err)` when its input does not decode, and nothing in the program
recovers a panic. -/
inductive ToolOut where
  | ok (s : String)
  | err (msg : String)
  | panicked (msg : String)

/-- The world a tool invocation acts on: the flat file view used by
`read_file`/`edit_file`, and the resolution of a path to the directory tree
`filepath.Walk` would traverse for `list_files` (`none` when `lstat` on the
walk root fails because the path does not exist). -/
structure World where
  fs : Fs
  resolveDir : String → Option FTree

/-- `ReadFile` (main.go): decode the input, then `os.ReadFile` the path;
a decode failure is wrapped as `invalid input format`, a read failure as
`failed to read file <path>`. -/
def ReadFile (input : RawMsg) (w : World) : ToolOut × World :=
  match decodeReadFileInput input with
  | .error e => (.err ("invalid input format: " ++ e), w)
  | .ok inp =>
    match osReadFile w.fs inp.path with
    | .error e => (.err ("failed to read file " ++ inp.path ++ ": " ++ e), w)
    | .ok content => (.ok content, w)

/-- `ListFiles` (main.go): a decode failure is `panic(err)`; otherwise walk
the requested directory (default `"."`), collecting relative paths with a
trailing `/` for directories, and `json.Marshal` the collected slice.
A failing `lstat` on the root aborts the walk with that error. -/
def ListFiles (input : RawMsg) (w : World) : ToolOut × World :=
  match decodeListFilesInput input with
  | .error e => (.panicked e, w)
  | .ok inp =>
    let dir := if inp.path == "" then "." else inp.path
    match w.resolveDir dir with
    | none => (.err (pathErrorMessage "lstat" dir), w)
    | some t => (.ok (goMarshalStrings (walkList t)), w)

/-- `createNewFile` (main.go): create the parent directory chain when the
parent is not `"."` (`os.MkdirAll` cannot fail in the model), write the
file, and acknowledge with the created path. -/
def createNewFile (w : World) (filePath content : String) : ToolOut × World :=
  let d := pathDir filePath
  let dirs := if d != "." then fsMkdirAll w.fs.dirs d else w.fs.dirs
  (.ok ("Successfully created file " ++ filePath),
   { w with fs := { files := fsWrite w.fs.files filePath content, dirs := dirs } })

/-- `EditFile` (main.go): decode; reject empty path or `old_str = new_str`;
read the file — if it does not exist and `old_str` is empty, create it,
otherwise propagate the read error; replace every occurrence of `old_str`
(Go `strings.Replace` with count -1); reject an unchanged content for a
non-empty `old_str`; write back and acknowledge `"OK"`. -/
def EditFile (input : RawMsg) (w : World) : ToolOut × World :=
  match decodeEditFileInput input with
  | .error e => (.err e, w)
  | .ok inp =>
    if inp.path == "" || inp.old_str == inp.new_str then
      (.err "invalid input parameters", w)
    else
      match osReadFile w.fs inp.path with
      | .error e =>
        -- the only read error in the model is the not-exist PathError,
        -- so os.IsNotExist holds of it
        if inp.old_str == "" then createNewFile w inp.path inp.new_str
        else (.err e, w)
      | .ok oldContent =>
        let newContent := stringsReplaceAll oldContent inp.old_str inp.new_str
        if oldContent == newContent && inp.old_str != "" then
          (.err "old_str not found in file", w)
        else
          (.ok "OK",
           { w with fs := { w.fs with files := fsWrite w.fs.files inp.path newContent } })

/-! ## Tool registry and dispatch -/

/-- `ToolDefinition` (main.go): a registered name bound to an executable.
(The description and JSON schema are advertisement to the model and play no
role in dispatch, so they are not modelled.) -/
structure ToolDefinition where
  name : String
  fn : RawMsg → World → ToolOut × World

/-- The fixed registry assembled in `main`:
`[ReadFileDefinition, ListFilesDefinition, EditFileDefinition]`. -/
def agentTools : List ToolDefinition :=
  [⟨"read_file", ReadFile⟩, ⟨"list_files", ListFiles⟩, ⟨"edit_file", EditFile⟩]

/-- A `tool_result` content block (`anthropic.NewToolResultBlock`). -/
structure ToolResultBlock where
  toolUseId : String
  content : String
  isError : Bool
  deriving DecidableEq

/-- What `Agent.executeTool` does: return a tool-result block, or let a
panic raised by the tool propagate. -/
inductive ExecOut where
  | result (r : ToolResultBlock)
  | panicked (msg : String)

/-- `Agent.executeTool` (main.go): linear scan of the registry for the first
matching name; an unknown name yields an is-error result with the fixed
message `"tool not found"`; otherwise the tool runs and its error (if any)
becomes an is-error result, its success a normal result. -/
def executeTool (w : World) (id name : String) (input : RawMsg) : ExecOut × World :=
  match agentTools.find? (fun t => t.name == name) with
  | none => (.result ⟨id, "tool not found", true⟩, w)
  | some tool =>
    match tool.fn input w with
    | (.ok s, w2) => (.result ⟨id, s, false⟩, w2)
    | (.err msg, w2) => (.result ⟨id, msg, true⟩, w2)
    | (.panicked msg, w2) => (.panicked msg, w2)

/-! ## Conversation model and the reply-processing step -/

/-- A content block of a model reply, as `Agent.processClaudeResponse`
switches on its `Type`: `"text"` or `"tool_use"`. -/
inductive RespBlock where
  | text (s : String)
  | toolUse (id name : String) (input : RawMsg)

/-- A model reply (`anthropic.Message`): its ordered content blocks. -/
structure Msg where
  content : List RespBlock

/-- A content segment of a conversation turn. -/
inductive Segment where
  | text (s : String)
  | toolUse (id name : String) (input : RawMsg)
  | toolResult (r : ToolResultBlock)

/-- The role of a conversation turn. -/
inductive Role where
  | user
  | assistant
  deriving DecidableEq

/-- One turn of the conversation (`anthropic.MessageParam`). -/
structure MessageParam where
  role : Role
  content : List Segment

/-- `anthropic.NewUserMessage(anthropic.NewTextBlock(line))`. -/
def userTextTurn (line : String) : MessageParam :=
  ⟨.user, [.text line]⟩

/-- `message.ToParam()`: the reply as an assistant turn. -/
def assistantTurn (m : Msg) : MessageParam :=
  ⟨.assistant, m.content.map (fun b =>
    match b with
    | .text s => .text s
    | .toolUse id name input => .toolUse id name input)⟩

/-- `anthropic.NewUserMessage(toolResults...)`: the synthesized user turn
packaging the collected tool results. -/
def toolResultsTurn (results : List ToolResultBlock) : MessageParam :=
  ⟨.user, results.map .toolResult⟩

/-- The iteration of `Agent.processClaudeResponse` over the reply's content
blocks: text blocks are printed (no state effect), `tool_use` blocks are
executed in order, each collecting one tool result; a tool panic aborts the
iteration and propagates. -/
def processBlocks (w : World) : List RespBlock → Except String (List ToolResultBlock) × World
  | [] => (.ok [], w)
  | .text _ :: rest => processBlocks w rest
  | .toolUse id name input :: rest =>
    match executeTool w id name input with
    | (.panicked msg, w2) => (.error msg, w2)
    | (.result r, w2) =>
      match processBlocks w2 rest with
      | (.ok results, w3) => (.ok (r :: results), w3)
      | e => e

/-- `Agent.processClaudeResponse` (main.go). -/
def processClaudeResponse (w : World) (m : Msg) :
    Except String (List ToolResultBlock) × World :=
  processBlocks w m.content

/-! ## One iteration of the dispatch loop (`Agent.Run`, main.go) -/

/-- The loop-carried state of `Agent.Run`: the conversation so far and the
`readUserInput` flag. -/
structure LoopState where
  conversation : List MessageParam
  readUserInput : Bool

/-- A remote inference oracle standing for `Agent.runInference`: the full
conversation in, one reply or an error out.  (The request also carries the
tool registry's descriptors; they do not influence the loop.) -/
def Inference : Type :=
  List MessageParam → Except String Msg

/-- The input phase at the top of the loop body: when `readUserInput` is
set, consume one line (`none` = end of input, which breaks the loop) and
append it as a user turn; otherwise leave the conversation alone without
touching standard input. -/
def inputPhase (st : LoopState) (nextUser : Option String) :
    Option (List MessageParam) :=
  if st.readUserInput then
    match nextUser with
    | none => none
    | some line => some (st.conversation ++ [userTextTurn line])
  else
    some st.conversation

/-- How one iteration of `Agent.Run`'s `for` loop ends. -/
inductive StepOut where
  | cont (st : LoopState) (w : World)
  | exitOk
  | exitErr (e : String)
  | panicked (msg : String)

/-- One iteration of the `for` loop in `Agent.Run` (main.go): read input if
the flag asks for it (end of input returns success), call inference (any
error is returned, terminating the loop), append the reply as an assistant
turn, process it; a non-empty list of tool results is appended as a single
synthesized user turn and the flag stays false, an empty list sets the flag
so the next iteration prompts the user. -/
def runStep (inference : Inference) (nextUser : Option String)
    (st : LoopState) (w : World) : StepOut :=
  match inputPhase st nextUser with
  | none => .exitOk
  | some conv =>
    match inference conv with
    | .error e => .exitErr e
    | .ok m =>
      let conv2 := conv ++ [assistantTurn m]
      match processClaudeResponse w m with
      | (.error msg, _) => .panicked msg
      | (.ok results, w2) =>
        if results.isEmpty then .cont ⟨conv2, true⟩ w2
        else .cont ⟨conv2 ++ [toolResultsTurn results], false⟩ w2

/-- `main` (main.go): a non-nil error returned by `Agent.Run` is printed
and the process exits with status 1; a nil return exits with status 0. -/
def mainExitCode (runResult : Except String Unit) : Nat :=
  match runResult with
  | .ok _ => 0
  | .error _ => 1

/-! ## The simplified tool-less loop (`Agent.Run`, src/unnamed/part_001) -/

/-- How one iteration of the simplified loop ends. -/
inductive SimpleStepOut where
  | cont (conversation : List MessageParam)
  | exitOk
  | exitErr (e : String)

/-- One iteration of the `for` loop in the simplified `Agent.Run`
(src/unnamed/part_001): always prompt for a line (end of input breaks the
loop), append it, call inference; an inference error whose text contains
`"overloaded_error"` is reported to the user and the loop continues (the
next iteration prompts again), any other inference error is returned;
a successful reply is appended and its text blocks printed. -/
def runStepSimple (inference : Inference) (nextUser : Option String)
    (conversation : List MessageParam) : SimpleStepOut :=
  match nextUser with
  | none => .exitOk
  | some line =>
    let conv := conversation ++ [userTextTurn line]
    match inference conv with
    | .error e =>
      if stringsContains e "overloaded_error" then .cont conv
      else .exitErr e
    | .ok m => .cont (conv ++ [assistantTurn m])

/-! ## Concrete fixtures used by witnesses and counterexamples -/

/-- A world with no files, no directories, and no resolvable walk roots. -/
def emptyWorld : World :=
  ⟨⟨[], []⟩, fun _ => none⟩

/-- A world holding one file `f` with content `a`. -/
def worldFa : World :=
  ⟨⟨[("f", "a")], []⟩, fun _ => none⟩

/-- A world holding one file `g` with content `xy`. -/
def worldGxy : World :=
  ⟨⟨[("g", "xy")], []⟩, fun _ => none⟩

/-- A world whose every walk root resolves to an empty directory. -/
def worldEmptyDir : World :=
  ⟨⟨[], []⟩, fun _ => some (.dir .nil)⟩

/-- The fixture directory of the spec scenario: one file `x.go` and one
empty subdirectory `y`. -/
def fixtureTree : FTree :=
  .dir (.cons "x.go" .file (.cons "y" (.dir .nil) .nil))

/-- A world whose every walk root resolves to `fixtureTree`. -/
def worldFixture : World :=
  ⟨⟨[], []⟩, fun _ => some fixtureTree⟩

/-! ## Lemmas about the Go string primitives -/

/-- The fuel argument of `goReplaceFuel` is irrelevant once it covers the
length of the subject string. -/
theorem goReplaceFuel_fuel_irrel (old new : List Char) :
    ∀ f1 f2 s, s.length ≤ f1 → s.length ≤ f2 →
      goReplaceFuel old new f1 s = goReplaceFuel old new f2 s := by
  intro f1
  induction f1 with
  | zero =>
    intro f2 s h1 _
    have : s = [] := List.length_eq_zero.mp (Nat.le_zero.mp h1)
    subst this
    cases f2 <;> rfl
  | succ f ih =>
    intro f2 s h1 h2
    cases s with
    | nil => cases f2 <;> rfl
    | cons c rest =>
      cases f2 with
      | zero => exact absurd h2 (by simp)
      | succ g =>
        simp only [goReplaceFuel]
        by_cases hcond : (!old.isEmpty && old.isPrefixOf (c :: rest)) = true
        · rw [if_pos hcond, if_pos hcond]
          have hold : 1 ≤ old.length := by
            rcases old with _ | _
            · simp at hcond
            · simp
          have h1' : rest.length + 1 ≤ f + 1 := by simpa using h1
          have h2' : rest.length + 1 ≤ g + 1 := by simpa using h2
          have hlen : ((c :: rest).drop old.length).length ≤ f := by
            simp only [List.length_drop, List.length_cons]
            omega
          have hlen2 : ((c :: rest).drop old.length).length ≤ g := by
            simp only [List.length_drop, List.length_cons]
            omega
          rw [ih _ _ hlen hlen2]
        · rw [if_neg hcond, if_neg hcond]
          have hlen : rest.length ≤ f := by simp at h1; omega
          have hlen2 : rest.length ≤ g := by simp at h2; omega
          rw [ih _ _ hlen hlen2]

/-- `goReplaceNonempty` on the empty subject. -/
theorem goReplaceNonempty_nil (old new : List Char) :
    goReplaceNonempty old new [] = [] := rfl

/-- A replacement step at a position where `old` does not match. -/
theorem goReplaceNonempty_no_match (old new : List Char) (c : Char) (s : List Char)
    (h : ¬ old.isPrefixOf (c :: s) = true) :
    goReplaceNonempty old new (c :: s) = c :: goReplaceNonempty old new s := by
  simp only [goReplaceNonempty, List.length_cons, goReplaceFuel]
  rw [if_neg (by simp [h])]

/-- A replacement step at a position where `old` matches: the match is
consumed and replaced by `new`. -/
theorem goReplaceNonempty_match (old new t : List Char) (h : old ≠ []) :
    goReplaceNonempty old new (old ++ t) = new ++ goReplaceNonempty old new t := by
  rcases old with _ | ⟨a, old'⟩
  · exact absurd rfl h
  · have hpre : (a :: old').isPrefixOf (a :: (old' ++ t)) = true := by
      rw [List.isPrefixOf_iff_prefix]
      exact ⟨t, by simp⟩
    have hcond : (!(a :: old').isEmpty && (a :: old').isPrefixOf (a :: (old' ++ t))) = true := by
      simp [hpre]
    simp only [goReplaceNonempty, List.cons_append, List.length_cons,
      List.length_append, goReplaceFuel, List.append_eq]
    rw [if_pos hcond]
    congr 1
    rw [show List.drop (old'.length + 1) (a :: (old' ++ t)) = t from by
      rw [List.drop_succ_cons]
      exact List.drop_left old' t]
    exact goReplaceFuel_fuel_irrel _ _ _ _ _ (by simp) (le_refl _)

/-- If `old` occurs nowhere in `s` (Go `strings.Contains` is false),
replacement leaves `s` unchanged. -/
theorem goReplaceNonempty_of_not_contains (old new : List Char) :
    ∀ s, goContainsAux old s = false → goReplaceNonempty old new s = s := by
  intro s
  induction s with
  | nil => intro _; rfl
  | cons c rest ih =>
    intro hc
    simp only [goContainsAux, Bool.or_eq_false_iff] at hc
    rw [goReplaceNonempty_no_match _ _ _ _ (by simp [hc.1]), ih hc.2]

/-- String-level reading of the previous lemma: a content in which
`old` does not occur is left unchanged by `strings.Replace`. -/
theorem stringsReplaceAll_of_not_contains (c o n : String)
    (ho : o ≠ "") (h : stringsContains c o = false) :
    stringsReplaceAll c o n = c := by
  have hod : o.data ≠ [] := by
    intro hnil
    exact ho (by cases o; simp_all)
  simp only [stringsReplaceAll, goReplaceAll, stringsContains] at *
  rw [if_neg (by simp [hod])]
  rw [goReplaceNonempty_of_not_contains _ _ _ h]

/-- Trailing-occurrence form: when no occurrence of `old` starts strictly
inside `y`, replacing in `y ++ old` rewrites exactly the final `old`. -/
theorem goReplaceNonempty_tail (old new : List Char) (h : old ≠ []) :
    ∀ y, (∀ i, i < y.length → ¬ old.isPrefixOf ((y ++ old).drop i) = true) →
    goReplaceNonempty old new (y ++ old) = y ++ new := by
  intro y
  induction y with
  | nil =>
    intro _
    simpa [goReplaceNonempty_nil] using goReplaceNonempty_match old new [] h
  | cons c y' ih =>
    intro hy
    have h0 : ¬ old.isPrefixOf (c :: (y' ++ old)) = true := by
      have := hy 0 (by simp)
      simpa using this
    rw [show (c :: y') ++ old = c :: (y' ++ old) from rfl,
        goReplaceNonempty_no_match _ _ _ _ h0,
        ih (fun i hi => by
          have := hy (i + 1) (by simp; omega)
          simpa using this)]
    rfl

/-- Decoding the JSON object the model sends for `edit_file` recovers the
three string fields. -/
theorem decode_mkEditInput (p o n : String) :
    decodeEditFileInput (mkEditInput p o n) = .ok ⟨p, o, n⟩ := rfl

/-- Decoding the JSON object the model sends for `read_file` recovers the
path field. -/
theorem decode_mkReadInput (p : String) :
    decodeReadFileInput (mkReadInput p) = .ok ⟨p⟩ := rfl

/-- Decoding the JSON object the model sends for `list_files` recovers the
path field. -/
theorem decode_mkListInput (p : String) :
    decodeListFilesInput (mkListInput p) = .ok ⟨p⟩ := rfl

/-- Reading a path right after writing it yields the written content. -/
theorem fsRead_fsWrite_self (files : List (String × String)) (p c : String) :
    fsRead (fsWrite files p c) p = some c := by
  induction files with
  | nil => simp [fsRead, fsWrite]
  | cons kv rest ih =>
    obtain ⟨q, d⟩ := kv
    by_cases hq : q = p
    · subst hq
      simp [fsRead, fsWrite]
    · simp [fsRead, fsWrite, hq, ih]

/-- A string is empty exactly when its character list is. -/
theorem string_data_eq_nil_iff (s : String) : s.data = [] ↔ s = "" := by
  constructor
  · intro h
    cases s
    simp_all [String.ext_iff]
  · intro h
    subst h
    rfl

/-! ## Claim C8 — unknown tool name at the dispatch boundary -/

/-- C8: for every invocation id, input, and tool name absent from the
registry, `executeTool` returns a tool-result with is-error true and message
exactly `"tool not found"`, and no panic escapes the dispatch boundary in
this case (the outcome is a `result`, never `panicked`). -/
theorem executeTool_unknown_tool (w : World) (id name : String) (input : RawMsg)
    (h1 : name ≠ "read_file") (h2 : name ≠ "list_files") (h3 : name ≠ "edit_file") :
    executeTool w id name input = (.result ⟨id, "tool not found", true⟩, w) := by
  have e1 : (("read_file" : String) == name) = false := beq_eq_false_iff_ne.mpr (Ne.symm h1)
  have e2 : (("list_files" : String) == name) = false := beq_eq_false_iff_ne.mpr (Ne.symm h2)
  have e3 : (("edit_file" : String) == name) = false := beq_eq_false_iff_ne.mpr (Ne.symm h3)
  simp [executeTool, agentTools, List.find?, e1, e2, e3]

/-- Witness for C8 at the concrete unregistered name `frobnicate`. -/
theorem executeTool_unknown_tool_witness :
    ("frobnicate" : String) ≠ "read_file"
    ∧ executeTool emptyWorld "toolu_01" "frobnicate" (.json .null) =
        (.result ⟨"toolu_01", "tool not found", true⟩, emptyWorld) :=
  ⟨by decide,
   executeTool_unknown_tool emptyWorld "toolu_01" "frobnicate" (.json .null)
     (by decide) (by decide) (by decide)⟩

/-! ## Claim C9 — edit_file input invariant checked before filesystem access -/

/-- C9: for every edit_file input with an empty path or `old_str = new_str`,
the invocation fails with the `InvalidInput` message `invalid input
parameters` and returns the world unchanged: no filesystem effect. -/
theorem editFile_invalid_params (w : World) (p o n : String)
    (h : p = "" ∨ o = n) :
    EditFile (mkEditInput p o n) w = (.err "invalid input parameters", w) := by
  simp only [EditFile, decode_mkEditInput]
  rcases h with h | h
  · subst h
    simp
  · subst h
    simp

/-- Witness for C9 at a concrete empty path. -/
theorem editFile_invalid_params_witness :
    (("" : String) = "" ∨ ("a" : String) = "b")
    ∧ EditFile (mkEditInput "" "a" "b") emptyWorld =
        (.err "invalid input parameters", emptyWorld) :=
  ⟨Or.inl rfl, editFile_invalid_params emptyWorld "" "a" "b" (Or.inl rfl)⟩

/-! ## Claim C4 — behavior on undecodable tool input -/

/-- C4: `read_file` and `edit_file` surface a decode failure as an error
result, but `list_files` panics on the same kind of failure (`panic(err)`
in `ListFiles`), and the panic propagates through `executeTool` — the
dispatch boundary does not absorb it, contradicting the claim for
`list_files`.  Evaluated at the failing input `path: 5` (a number where a
string is required) and at syntactically invalid bytes. -/
theorem tool_decode_failure_behavior :
    (ReadFile (.json (.num 5)) emptyWorld).1 =
      .err "invalid input format: json: cannot unmarshal value into Go struct"
    ∧ (ReadFile .invalid emptyWorld).1 =
      .err "invalid input format: invalid character in JSON input"
    ∧ (EditFile (.json (.obj [("path", .num 5)])) emptyWorld).1 =
      .err "json: cannot unmarshal value into Go struct field path of type string"
    ∧ (ListFiles (.json (.obj [("path", .num 5)])) emptyWorld).1 =
      .panicked "json: cannot unmarshal value into Go struct field path of type string"
    ∧ (ListFiles .invalid emptyWorld).1 = .panicked "invalid character in JSON input"
    ∧ (executeTool emptyWorld "toolu_02" "list_files" (.json (.obj [("path", .num 5)]))).1 =
      .panicked "json: cannot unmarshal value into Go struct field path of type string" :=
  ⟨rfl, rfl, rfl, rfl, rfl, rfl⟩

/-! ## Claim C3 — list_files output -/

/-- C3 counterexample: on an empty directory the tool succeeds but returns
the string `null`, not `[]` — the accumulating Go slice is nil when nothing
was appended, and `json.Marshal` of a nil slice is `null`. -/
theorem listFiles_empty_dir_cex :
    (ListFiles (mkListInput "fixture") worldEmptyDir).1 = .ok "null"
    ∧ ("null" : String) ≠ "[]" :=
  ⟨rfl, by decide⟩

/-- C3 as amended: whenever the walk root resolves, `list_files` succeeds
with `json.Marshal` of the walked entries (descendants' root-relative
paths, root excluded, `/` appended to directories); that is the string
`null` when the tree below the root is empty — the walk of a childless
directory collects nothing — and a JSON array of the entries otherwise. -/
theorem listFiles_output_shape (w : World) (p : String) (t : FTree)
    (h : w.resolveDir (if p == "" then "." else p) = some t) :
    ListFiles (mkListInput p) w = (.ok (goMarshalStrings (walkList t)), w)
    ∧ (walkList t = [] → goMarshalStrings (walkList t) = "null")
    ∧ (walkList t ≠ [] →
        goMarshalStrings (walkList t) =
          "[" ++ String.intercalate "," ((walkList t).map goQuote) ++ "]")
    ∧ walkList (FTree.dir .nil) = [] := by
  refine ⟨?_, ?_, ?_, rfl⟩
  · simp only [ListFiles, decode_mkListInput, h]
  · intro he
    simp [goMarshalStrings, he]
  · intro he
    simp [goMarshalStrings, List.isEmpty_iff, he]

/-- Witness for C3 (amended) at the spec's fixture directory holding
`x.go` and `y/`. -/
theorem listFiles_output_shape_witness :
    worldFixture.resolveDir (if ("sub" : String) == "" then "." else "sub") = some fixtureTree
    ∧ ListFiles (mkListInput "sub") worldFixture =
        (.ok (goMarshalStrings (walkList fixtureTree)), worldFixture)
    ∧ goMarshalStrings (walkList fixtureTree) = "[\"x.go\",\"y/\"]" :=
  ⟨rfl, (listFiles_output_shape worldFixture "sub" fixtureTree rfl).1, rfl⟩

/-! ## Claim C10 — empty old_str on an existing file -/

/-- C10: on an existing file (non-empty path) with a non-empty `new_str`,
`edit_file` with `old_str = ""` succeeds with `OK` and rewrites the file
with `strings.Replace`'s empty-pattern semantics: `new_str` inserted at
every character boundary of the original content. -/
theorem editFile_empty_old_interleaves (w : World) (p c n : String)
    (hc : fsRead w.fs.files p = some c) (hp : p ≠ "") (hn : n ≠ "") :
    EditFile (mkEditInput p "" n) w =
      (.ok "OK",
       { w with fs := { w.fs with
          files := fsWrite w.fs.files p (stringsReplaceAll c "" n) } })
    ∧ stringsReplaceAll c "" n = String.mk (goInterleave n.data c.data) := by
  have b1 : (p == "") = false := beq_eq_false_iff_ne.mpr hp
  have b2 : (("" : String) == n) = false := beq_eq_false_iff_ne.mpr (Ne.symm hn)
  constructor
  · simp only [EditFile, decode_mkEditInput, b1, b2, Bool.or_self, Bool.or_false,
      Bool.false_or, if_false, osReadFile, hc, bne_self_eq_false, Bool.and_false]
    simp
  · rfl

/-- Witness for C10: interleaving `X` through the one-character file `a`. -/
theorem editFile_empty_old_interleaves_witness :
    fsRead worldFa.fs.files "f" = some "a"
    ∧ EditFile (mkEditInput "f" "" "X") worldFa =
        (.ok "OK",
         { worldFa with fs := { worldFa.fs with
            files := fsWrite worldFa.fs.files "f" (stringsReplaceAll "a" "" "X") } })
    ∧ stringsReplaceAll "a" "" "X" = "XaX" :=
  ⟨rfl,
   (editFile_empty_old_interleaves worldFa "f" "a" "X" rfl (by decide) (by decide)).1,
   by decide⟩

/-! ## Claim C6 — edit_file on an existing file replaces all occurrences -/

/-- Helper: on an existing file, when the all-occurrences replacement
leaves the content unchanged and `old_str` is non-empty, `EditFile` fails
with `old_str not found in file` and the world is untouched. -/
theorem editFile_unchanged_err (w : World) (p o n c : String)
    (hc : fsRead w.fs.files p = some c) (hp : p ≠ "") (ho : o ≠ "") (hon : o ≠ n)
    (heq : stringsReplaceAll c o n = c) :
    EditFile (mkEditInput p o n) w = (.err "old_str not found in file", w) := by
  have b1 : (p == "") = false := beq_eq_false_iff_ne.mpr hp
  have b2 : (o == n) = false := beq_eq_false_iff_ne.mpr hon
  have bo : (o == "") = false := beq_eq_false_iff_ne.mpr ho
  simp only [EditFile, decode_mkEditInput, b1, b2, Bool.or_self, Bool.or_false,
    Bool.false_or, if_false, osReadFile, hc, heq, beq_self_eq_true, Bool.true_and,
    bne, bo, Bool.not_false, if_true]
  simp

/-- Helper: on an existing file, when the all-occurrences replacement
changes the content, `EditFile` writes it back in place and returns `OK`. -/
theorem editFile_changed_ok (w : World) (p o n c : String)
    (hc : fsRead w.fs.files p = some c) (hp : p ≠ "") (hon : o ≠ n)
    (hne : stringsReplaceAll c o n ≠ c) :
    EditFile (mkEditInput p o n) w =
      (.ok "OK",
       { w with fs := { w.fs with
          files := fsWrite w.fs.files p (stringsReplaceAll c o n) } }) := by
  have b1 : (p == "") = false := beq_eq_false_iff_ne.mpr hp
  have b2 : (o == n) = false := beq_eq_false_iff_ne.mpr hon
  have hbeq : (c == stringsReplaceAll c o n) = false :=
    beq_eq_false_iff_ne.mpr (Ne.symm hne)
  simp only [EditFile, decode_mkEditInput, b1, b2, Bool.or_self, Bool.or_false,
    Bool.false_or, if_false, osReadFile, hc, hbeq, Bool.false_and, if_false]
  simp

/-- C6: on an existing file with non-empty `old_str` (and the input
invariant satisfied), `edit_file` writes back the content with **every**
occurrence of `old_str` replaced (`strings.Replace` with count -1) and
acknowledges with exactly `OK`; when the replacement leaves the content
unchanged — in particular whenever `old_str` does not occur — it fails with
`old_str not found in file` and the world is untouched.  The last conjunct
exhibits the all-occurrences semantics: a content of the form
`old ++ y ++ old` (no occurrence starting inside `y`) has **both** its
first and its last occurrence rewritten. -/
theorem editFile_replaces_every_occurrence (w : World) (p o n c : String)
    (hc : fsRead w.fs.files p = some c) (hp : p ≠ "") (ho : o ≠ "") (hon : o ≠ n) :
    (stringsReplaceAll c o n = c →
      EditFile (mkEditInput p o n) w = (.err "old_str not found in file", w))
    ∧ (stringsReplaceAll c o n ≠ c →
      EditFile (mkEditInput p o n) w =
        (.ok "OK",
         { w with fs := { w.fs with
            files := fsWrite w.fs.files p (stringsReplaceAll c o n) } }))
    ∧ (stringsContains c o = false → stringsReplaceAll c o n = c)
    ∧ (∀ y : List Char,
        (∀ i, i < y.length → ¬ o.data.isPrefixOf ((y ++ o.data).drop i) = true) →
        goReplaceAll (o.data ++ (y ++ o.data)) o.data n.data =
          n.data ++ (y ++ n.data)) := by
  have hod : o.data ≠ [] := by
    intro hnil
    exact ho (by cases o; simp_all)
  refine ⟨?_, ?_, ?_, ?_⟩
  · intro heq
    exact editFile_unchanged_err w p o n c hc hp ho hon heq
  · intro hne
    exact editFile_changed_ok w p o n c hc hp hon hne
  · intro hcont
    exact stringsReplaceAll_of_not_contains c o n ho hcont
  · intro y hy
    have hne : o.data.isEmpty = false := by
      cases h : o.data
      · exact absurd h hod
      · rfl
    simp only [goReplaceAll, hne, if_false, Bool.false_eq_true]
    rw [goReplaceNonempty_match o.data n.data (y ++ o.data) hod,
        goReplaceNonempty_tail o.data n.data hod y hy]

/-- Witness for C6: in the file content `ab ab`, both occurrences of `ab`
are replaced by `X`. -/
theorem editFile_replaces_every_occurrence_witness :
    fsRead [("f", "ab ab")] "f" = some "ab ab"
    ∧ stringsReplaceAll "ab ab" "ab" "X" ≠ "ab ab"
    ∧ EditFile (mkEditInput "f" "ab" "X") ⟨⟨[("f", "ab ab")], []⟩, fun _ => none⟩ =
        (.ok "OK",
         { (⟨⟨[("f", "ab ab")], []⟩, fun _ => none⟩ : World) with
            fs := { (⟨⟨[("f", "ab ab")], []⟩, fun _ => none⟩ : World).fs with
              files := fsWrite [("f", "ab ab")] "f" (stringsReplaceAll "ab ab" "ab" "X") } }
         )
    ∧ stringsReplaceAll "ab ab" "ab" "X" = "X X" :=
  ⟨rfl, by decide,
   ((editFile_replaces_every_occurrence ⟨⟨[("f", "ab ab")], []⟩, fun _ => none⟩
      "f" "ab" "X" "ab ab" rfl (by decide) (by decide) (by decide)).2.1 (by decide)),
   by decide⟩

/-! ## Claim C5 — idempotence of edit_file -/

/-- C5 counterexample: with file `f` containing `a`, the edit
`(path f, old_str a, new_str ab)` applied twice yields `abb`, not the `ab`
a single application yields — and the second invocation succeeds with `OK`
instead of failing — because `new_str` contains `old_str`, so `old_str`
still occurs after the first replacement. -/
theorem editFile_idempotence_cex :
    (EditFile (mkEditInput "f" "a" "ab") worldFa).1 = .ok "OK"
    ∧ fsRead (EditFile (mkEditInput "f" "a" "ab") worldFa).2.fs.files "f" = some "ab"
    ∧ (EditFile (mkEditInput "f" "a" "ab")
        (EditFile (mkEditInput "f" "a" "ab") worldFa).2).1 = .ok "OK"
    ∧ fsRead (EditFile (mkEditInput "f" "a" "ab")
        (EditFile (mkEditInput "f" "a" "ab") worldFa).2).2.fs.files "f" = some "abb"
    ∧ ("abb" : String) ≠ "ab" :=
  ⟨rfl, rfl, rfl, rfl, by decide⟩

/-- C5 as amended: when `old_str` no longer occurs in the file content
after the first invocation, the second identical invocation fails with
`old_str not found in file` and leaves the world — hence the final file
content — exactly as after one invocation.  (Without that proviso
idempotence fails, e.g. when `new_str` contains `old_str`.) -/
theorem editFile_idempotent_when_old_absent (w : World) (p o n c1 : String)
    (hp : p ≠ "") (ho : o ≠ "") (hon : o ≠ n)
    (h1 : fsRead (EditFile (mkEditInput p o n) w).2.fs.files p = some c1)
    (h2 : stringsContains c1 o = false) :
    EditFile (mkEditInput p o n) (EditFile (mkEditInput p o n) w).2 =
      (.err "old_str not found in file", (EditFile (mkEditInput p o n) w).2) := by
  have hrep : stringsReplaceAll c1 o n = c1 :=
    stringsReplaceAll_of_not_contains c1 o n ho h2
  exact editFile_unchanged_err (EditFile (mkEditInput p o n) w).2
    p o n c1 h1 hp ho hon hrep

/-- Witness for C5 (amended): replacing `x` by `z` in the file `g` holding
`xy` leaves `zy`, in which `x` no longer occurs; the second invocation
fails and changes nothing. -/
theorem editFile_idempotent_when_old_absent_witness :
    fsRead (EditFile (mkEditInput "g" "x" "z") worldGxy).2.fs.files "g" = some "zy"
    ∧ stringsContains "zy" "x" = false
    ∧ EditFile (mkEditInput "g" "x" "z") (EditFile (mkEditInput "g" "x" "z") worldGxy).2 =
        (.err "old_str not found in file", (EditFile (mkEditInput "g" "x" "z") worldGxy).2) :=
  ⟨rfl, by decide,
   editFile_idempotent_when_old_absent worldGxy "g" "x" "z" "zy"
     (by decide) (by decide) (by decide) rfl (by decide)⟩

/-! ## Claim C7 — creation case and NotFound case of edit_file -/

/-- C7 counterexample: at a nonexistent path with `new_str = ""` (a value
the claim's "every new_str" includes), `edit_file` with `old_str = ""` does
**not** create the file: the invariant check `old_str ≠ new_str` rejects the
input first with `invalid input parameters`. -/
theorem editFile_creation_empty_new_cex :
    EditFile (mkEditInput "newfile.txt" "" "") emptyWorld =
      (.err "invalid input parameters", emptyWorld)
    ∧ fsRead emptyWorld.fs.files "newfile.txt" = none :=
  ⟨rfl, rfl⟩

/-- C7 as amended: for a nonexistent non-empty path and a **non-empty**
`new_str` (so the invariant `old_str ≠ new_str` admits the input),
`edit_file` with `old_str = ""` routes to `createNewFile`: it answers
`Successfully created file <path>`, the file then holds exactly `new_str`
(and `read_file` returns it verbatim), and when the parent directory is not
`"."` the whole ancestor chain of parent directories is created by
`os.MkdirAll`.  With a non-empty `old_str` (≠ `new_str`) the same call
instead fails with the not-exist error of the failed read. -/
theorem editFile_creates_file (w : World) (p n : String)
    (hne : fsRead w.fs.files p = none) (hp : p ≠ "") (hn : n ≠ "") :
    EditFile (mkEditInput p "" n) w = createNewFile w p n
    ∧ (createNewFile w p n).1 = .ok ("Successfully created file " ++ p)
    ∧ fsRead (createNewFile w p n).2.fs.files p = some n
    ∧ ReadFile (mkReadInput p) (createNewFile w p n).2 =
        (.ok n, (createNewFile w p n).2)
    ∧ ((pathDir p != ".") = true →
        (createNewFile w p n).2.fs.dirs = fsMkdirAll w.fs.dirs (pathDir p)
        ∧ ∀ d ∈ ancestorDirs (pathDir p), d ∈ (createNewFile w p n).2.fs.dirs)
    ∧ (∀ o, o ≠ "" → o ≠ n →
        EditFile (mkEditInput p o n) w = (.err (pathErrorMessage "open" p), w)) := by
  have b1 : (p == "") = false := beq_eq_false_iff_ne.mpr hp
  have b2 : (("" : String) == n) = false := beq_eq_false_iff_ne.mpr (Ne.symm hn)
  have hread : osReadFile w.fs p = .error (pathErrorMessage "open" p) := by
    simp [osReadFile, hne]
  refine ⟨?_, rfl, ?_, ?_, ?_, ?_⟩
  · simp [EditFile, decode_mkEditInput, b1, b2, hread]
  · simp [createNewFile, fsRead_fsWrite_self]
  · simp [ReadFile, decode_mkReadInput, osReadFile, createNewFile, fsRead_fsWrite_self]
  · intro hd
    constructor
    · simp [createNewFile, hd]
    · intro d hdmem
      simp only [createNewFile, hd, if_true]
      exact List.mem_append_left _ hdmem
  · intro o ho hon
    have b1' : (p == "") = false := b1
    have b2' : (o == n) = false := beq_eq_false_iff_ne.mpr hon
    have bo : (o == "") = false := beq_eq_false_iff_ne.mpr ho
    simp [EditFile, decode_mkEditInput, b1', b2', bo, hread]

/-- Witness for C7 (amended): creating `a/b/c.txt` with content `hello` in
the empty world creates the parent chain `a`, `a/b` and the file itself. -/
theorem editFile_creates_file_witness :
    fsRead emptyWorld.fs.files "a/b/c.txt" = none
    ∧ EditFile (mkEditInput "a/b/c.txt" "" "hello") emptyWorld =
        createNewFile emptyWorld "a/b/c.txt" "hello"
    ∧ (createNewFile emptyWorld "a/b/c.txt" "hello").1 =
        .ok "Successfully created file a/b/c.txt"
    ∧ (createNewFile emptyWorld "a/b/c.txt" "hello").2.fs =
        ⟨[("a/b/c.txt", "hello")], ["a", "a/b"]⟩
    ∧ ReadFile (mkReadInput "a/b/c.txt") (createNewFile emptyWorld "a/b/c.txt" "hello").2 =
        (.ok "hello", (createNewFile emptyWorld "a/b/c.txt" "hello").2)
    ∧ EditFile (mkEditInput "a/b/c.txt" "zz" "hello") emptyWorld =
        (.err (pathErrorMessage "open" "a/b/c.txt"), emptyWorld) :=
  ⟨rfl,
   (editFile_creates_file emptyWorld "a/b/c.txt" "hello" rfl (by decide) (by decide)).1,
   rfl,
   rfl,
   (editFile_creates_file emptyWorld "a/b/c.txt" "hello" rfl (by decide) (by decide)).2.2.2.1,
   (editFile_creates_file emptyWorld "a/b/c.txt" "hello" rfl (by decide) (by decide)).2.2.2.2.2
     "zz" (by decide) (by decide)⟩

/-! ## Claim C1 — tool results drive one synthesized user turn and immediate re-inference -/

/-- C1: whenever an iteration of the dispatch loop obtains a model reply
whose processing yields at least one tool result, all the results are
packaged as exactly **one** new user-role turn appended after the assistant
turn, and the loop continues with `readUserInput = false` — the next
iteration ignores standard input entirely (it behaves identically for any
value of the next user line) and goes straight back to inference; when no
tool result was produced the loop continues with `readUserInput = true`,
awaiting user input. -/
theorem dispatch_tool_results_single_turn (inference : Inference)
    (nextUser : Option String) (st : LoopState) (w : World)
    (conv : List MessageParam) (m : Msg)
    (results : List ToolResultBlock) (w2 : World)
    (hin : inputPhase st nextUser = some conv)
    (hinf : inference conv = .ok m)
    (hproc : processClaudeResponse w m = (.ok results, w2)) :
    (results ≠ [] →
      runStep inference nextUser st w =
        .cont ⟨(conv ++ [assistantTurn m]) ++ [toolResultsTurn results], false⟩ w2
      ∧ ∀ u1 u2 : Option String,
          runStep inference u1
            ⟨(conv ++ [assistantTurn m]) ++ [toolResultsTurn results], false⟩ w2 =
          runStep inference u2
            ⟨(conv ++ [assistantTurn m]) ++ [toolResultsTurn results], false⟩ w2)
    ∧ (results = [] →
      runStep inference nextUser st w = .cont ⟨conv ++ [assistantTurn m], true⟩ w2) := by
  constructor
  · intro hne
    constructor
    · have hres : results.isEmpty = false := by
        cases results
        · exact absurd rfl hne
        · rfl
      simp only [runStep, hin, hinf, hproc, hres]
      simp
    · intro u1 u2
      simp [runStep, inputPhase]
  · intro he
    subst he
    simp only [runStep, hin, hinf, hproc, List.isEmpty_nil]
    simp

/-- Witness for C1: a reply requesting one unknown tool produces one tool
result, so the loop appends the synthesized user turn and keeps
`readUserInput = false`. -/
theorem dispatch_tool_results_single_turn_witness :
    inputPhase ⟨[], true⟩ (some "hi") = some [userTextTurn "hi"]
    ∧ processClaudeResponse emptyWorld ⟨[.toolUse "t1" "nope" (.json .null)]⟩ =
        (.ok [⟨"t1", "tool not found", true⟩], emptyWorld)
    ∧ ([(⟨"t1", "tool not found", true⟩ : ToolResultBlock)] ≠ [])
    ∧ runStep (fun _ => .ok ⟨[.toolUse "t1" "nope" (.json .null)]⟩)
        (some "hi") ⟨[], true⟩ emptyWorld =
        .cont ⟨([userTextTurn "hi"] ++ [assistantTurn ⟨[.toolUse "t1" "nope" (.json .null)]⟩]) ++
                 [toolResultsTurn [⟨"t1", "tool not found", true⟩]], false⟩ emptyWorld :=
  ⟨rfl, rfl, by decide,
   ((dispatch_tool_results_single_turn
      (fun _ => .ok ⟨[.toolUse "t1" "nope" (.json .null)]⟩) (some "hi") ⟨[], true⟩
      emptyWorld [userTextTurn "hi"] ⟨[.toolUse "t1" "nope" (.json .null)]⟩
      [⟨"t1", "tool not found", true⟩] emptyWorld rfl rfl rfl).1 (by decide)).1⟩

/-! ## Claim C2 — inference-failure policy -/

/-- C2 counterexample: in the tool-dispatch loop of main.go, an inference
error whose text contains the transient `overloaded_error` marker does
**not** keep the loop alive: `Agent.Run` returns the error like any other
(and `main` then exits non-zero), contrary to the claimed bifurcation. -/
theorem overload_error_terminates_loop_cex :
    stringsContains "api error 529: overloaded_error: Overloaded" "overloaded_error" = true
    ∧ runStep (fun _ => .error "api error 529: overloaded_error: Overloaded")
        (some "hi") ⟨[], true⟩ emptyWorld =
        .exitErr "api error 529: overloaded_error: Overloaded"
    ∧ mainExitCode (.error "api error 529: overloaded_error: Overloaded") = 1 :=
  ⟨by decide, rfl, rfl⟩

/-- C2 as amended: in the tool-dispatch loop (`Agent.Run`, main.go) every
inference failure — the recognized overload condition included — terminates
the loop by propagating the error, after which `main` exits with status 1;
the claimed bifurcation exists only in the simplified tool-less loop
variant (src/unnamed/part_001), where an error whose text contains
`overloaded_error` is reported and the loop continues prompting for new
input without resubmitting, while any other inference error terminates the
loop by propagating. -/
theorem inference_error_handling (inference : Inference) (nextUser : Option String)
    (st : LoopState) (w : World) (conv : List MessageParam) (e : String)
    (hin : inputPhase st nextUser = some conv)
    (hinf : inference conv = .error e) :
    runStep inference nextUser st w = .exitErr e
    ∧ mainExitCode (.error e) = 1
    ∧ (∀ (inf2 : Inference) (line : String) (conversation : List MessageParam),
        inf2 (conversation ++ [userTextTurn line]) = .error e →
        (stringsContains e "overloaded_error" = true →
          runStepSimple inf2 (some line) conversation =
            .cont (conversation ++ [userTextTurn line]))
        ∧ (stringsContains e "overloaded_error" = false →
          runStepSimple inf2 (some line) conversation = .exitErr e)) := by
  refine ⟨?_, rfl, ?_⟩
  · simp only [runStep, hin, hinf]
  · intro inf2 line conversation h2
    constructor
    · intro hov
      simp only [runStepSimple, h2, hov, if_true]
    · intro hov
      simp only [runStepSimple, h2, hov, Bool.false_eq_true, if_false]

/-- Witness for C2 (amended), applied once to a generic fatal error and
once to an overload error: the dispatch loop terminates on both, the
simplified loop continues only on the overload one. -/
theorem inference_error_handling_witness :
    inputPhase ⟨[], true⟩ (some "x") = some [userTextTurn "x"]
    ∧ runStep (fun _ => .error "boom") (some "x") ⟨[], true⟩ emptyWorld = .exitErr "boom"
    ∧ runStep (fun _ => .error "z overloaded_error z") (some "x") ⟨[], true⟩ emptyWorld =
        .exitErr "z overloaded_error z"
    ∧ runStepSimple (fun _ => .error "boom") (some "x") [] = .exitErr "boom"
    ∧ runStepSimple (fun _ => .error "z overloaded_error z") (some "x") [] =
        .cont [userTextTurn "x"] :=
  ⟨rfl,
   (inference_error_handling (fun _ => .error "boom") (some "x") ⟨[], true⟩ emptyWorld
      [userTextTurn "x"] "boom" rfl rfl).1,
   (inference_error_handling (fun _ => .error "z overloaded_error z") (some "x")
      ⟨[], true⟩ emptyWorld [userTextTurn "x"] "z overloaded_error z" rfl rfl).1,
   ((inference_error_handling (fun _ => .error "boom") (some "x") ⟨[], true⟩ emptyWorld
      [userTextTurn "x"] "boom" rfl rfl).2.2 (fun _ => .error "boom") "x" [] rfl).2
     (by decide),
   ((inference_error_handling (fun _ => .error "z overloaded_error z") (some "x")
      ⟨[], true⟩ emptyWorld [userTextTurn "x"] "z overloaded_error z" rfl rfl).2.2
      (fun _ => .error "z overloaded_error z") "x" [] rfl).1 (by decide)⟩

end GoAgent
